import Mathlib

/-!
Shallow embedding of pourover's feed-ingestion and throttled-publishing core
(`buster/application/models.py` and the webhook handlers of
`buster/application/views.py`).

The App Engine datastore is modelled as an in-memory keyed store: a list of
entities together with a keyed `put` that replaces the entity carrying the
same key (or appends a fresh one).  Entries are keyed by `(feed id, guid)`,
feeds by their id.  Times (`added`, `published_at`, `datetime.now()`) are
integers; the cooperative tasklets of the source are sequentialised, with
every external response (`urlfetch` result, item enrichment, feed parsing)
passed in as explicit data or functions.
-/

namespace Pourover

namespace OVERFLOW_REASON

/-- Modelled from the spec: `constants.py` is not part of the sources; the
spec's overflow-reason enum {BACKLOG, MALFORMED, FEED_OVERFLOW} is embedded
as distinct numerals (the entry field defaults to `0`, which is none of
them). -/
def BACKLOG : Nat := 1

/-- Modelled from the spec: see `OVERFLOW_REASON.BACKLOG`. -/
def MALFORMED : Nat := 2

/-- Modelled from the spec: see `OVERFLOW_REASON.BACKLOG`. -/
def FEED_OVERFLOW : Nat := 3

end OVERFLOW_REASON

namespace FEED_STATE

/-- Modelled from the spec: `constants.py` is not part of the sources; the
spec's feed lifecycle states {active, needs-reauthorization, disabled} are
embedded as distinct numerals.  They are nonzero, matching Python truthiness
of the enum constants (`Feed.reauthorize` tests `if FEED_STATE.NEEDS_REAUTH`). -/
def ACTIVE : Nat := 1

/-- Modelled from the spec: see `FEED_STATE.ACTIVE`. -/
def NEEDS_REAUTH : Nat := 2

/-- Modelled from the spec: see `FEED_STATE.ACTIVE`. -/
def DISABLED : Nat := 3

end FEED_STATE

/-- Modelled from the spec: `constants.py` is not part of the sources.  The
system-default rolling-window length in minutes ("e.g., 5 minutes"); its
exact value decides no claim. -/
def DEFAULT_PERIOD_SCHEDULE : Int := 5

/-- Modelled from the spec: `constants.py` is not part of the sources.  The
system-default posts-per-window limit; its exact value decides no claim. -/
def MAX_STORIES_PER_PERIOD : Int := 1

/-- The `Entry` ndb model, restricted to the fields the verified operations
read or write.  `added` is the `auto_now_add` creation time, `published_at`
is unset (`None`) until the entry is published. -/
structure Entry where
  feedId : Nat
  guid : String
  creating : Bool
  title : Option String
  link : Option String
  summary : Option String
  added : Int
  published : Bool
  overflow : Bool
  overflow_reason : Nat
  published_at : Option Int
  deriving DecidableEq, Repr

/-- The `Feed` ndb model, restricted to the fields the verified operations
read or write.  `userId` is the parent `User` key (`None` models a feed
whose key has no parent). -/
structure Feed where
  id : Nat
  userId : Option Nat
  status : Nat
  manual_control : Bool
  schedule_period : Int
  max_stories_per_period : Int
  hub_secret : Option String
  deriving DecidableEq, Repr

/-- Datastore key of an entry: `ndb.Key(Entry, guid, parent=feed.key)`. -/
def Entry.ekey (e : Entry) : Nat × String := (e.feedId, e.guid)

/-- Keyed `put`: replace the entity holding the same key, else append. -/
def putEntry (s : List Entry) (e : Entry) : List Entry :=
  if s.any (fun x => decide (x.ekey = e.ekey)) then
    s.map (fun x => if x.ekey = e.ekey then e else x)
  else
    s ++ [e]

/-- Well-formed entry store: at most one entity per key. -/
def wfE (s : List Entry) : Prop := (s.map Entry.ekey).Nodup

instance (s : List Entry) : Decidable (wfE s) := by
  unfold wfE; infer_instance

/-- `ndb.Key(cls, guid, parent=feed.key).get() is not None`. -/
def presentGuid (s : List Entry) (f : Feed) (g : String) : Bool :=
  s.any (fun e => decide (e.ekey = (f.id, g)))

def getFeed (fs : List Feed) (fid : Nat) : Option Feed :=
  fs.find? (fun f => decide (f.id = fid))

def putFeed (fs : List Feed) (f : Feed) : List Feed :=
  if fs.any (fun x => decide (x.id = f.id)) then
    fs.map (fun x => if x.id = f.id then f else x)
  else
    fs ++ [f]

def removeFeed (fs : List Feed) (fid : Nat) : List Feed :=
  fs.filter (fun x => decide (¬x.id = fid))

/-- The datastore: `Entry` entities and `Feed` entities. -/
structure DB where
  entries : List Entry
  feeds : List Feed
  deriving DecidableEq, Repr

/-- `.order(-cls.added)`: descending creation time. -/
def addedDesc : Entry → Entry → Prop := fun a b => b.added ≤ a.added

instance : DecidableRel addedDesc := fun a b =>
  inferInstanceAs (Decidable (b.added ≤ a.added))

instance : IsTotal Entry addedDesc :=
  ⟨fun a b => (le_total b.added a.added).imp id id⟩

instance : IsTrans Entry addedDesc :=
  ⟨fun _ _ _ hab hbc => le_trans hbc hab⟩

/-- `.order(cls.added)`: ascending creation time. -/
def addedAsc : Entry → Entry → Prop := fun a b => a.added ≤ b.added

instance : DecidableRel addedAsc := fun a b =>
  inferInstanceAs (Decidable (a.added ≤ b.added))

/-- Datastore order on a possibly-unset property: `None` sorts below every
set value. -/
def optIntLE : Option Int → Option Int → Bool
  | none, _ => true
  | some _, none => false
  | some a, some b => decide (a ≤ b)

/-- `.order(-cls.published_at)`: descending publication time. -/
def paDesc : Entry → Entry → Prop :=
  fun a b => optIntLE b.published_at a.published_at = true

instance : DecidableRel paDesc := fun _ _ =>
  inferInstanceAs (Decidable (_ = true))

/-- `Entry.latest_for_feed`: `cls.query(cls.creating == False, ancestor=feed.key)`. -/
def Entry.latest_for_feed (s : List Entry) (f : Feed) : List Entry :=
  s.filter (fun e => decide (e.creating = false ∧ e.feedId = f.id))

/-- `Entry.latest_unpublished`: unpublished, non-reserved entries of the feed,
ordered by `-added`. -/
def Entry.latest_unpublished (s : List Entry) (f : Feed) : List Entry :=
  List.insertionSort addedDesc
    (s.filter (fun e =>
      decide (e.published = false ∧ e.creating = false ∧ e.feedId = f.id)))

/-- `Entry.latest`: published entries of the feed with the requested overflow
flag, optionally ordered, restricted to the given overflow categories when
`include_overflow` is set. -/
def Entry.latest (s : List Entry) (f : Feed) (include_overflow : Bool)
    (overflow_cats : Option (List Nat)) (order_by : String) : List Entry :=
  let q := s.filter (fun e =>
    decide (e.published = true ∧ e.creating = false ∧
      e.overflow = include_overflow ∧ e.feedId = f.id))
  let q := if order_by = "added" then List.insertionSort addedAsc q else q
  let q := if order_by = "-published_at" then List.insertionSort paDesc q else q
  let cats := match overflow_cats with
    | none => [OVERFLOW_REASON.MALFORMED, OVERFLOW_REASON.FEED_OVERFLOW]
    | some c => c
  if include_overflow then q.filter (fun e => decide (e.overflow_reason ∈ cats)) else q

/-- Inequality filter `published_at >= since`; an unset property never
satisfies a datastore inequality. -/
def sinceOK (pa : Option Int) (t : Int) : Bool :=
  match pa with
  | some v => decide (t ≤ v)
  | none => false

/-- `Entry.latest_published`: published, non-reserved entries of the feed,
ordered by `-published_at` then `-added`, optionally restricted to
`published_at >= since`. -/
def Entry.latest_published (s : List Entry) (f : Feed) (since : Option Int) :
    List Entry :=
  let q := List.insertionSort paDesc (List.insertionSort addedDesc
    (s.filter (fun e =>
      decide (e.published = true ∧ e.creating = false ∧ e.feedId = f.id))))
  match since with
  | some t => q.filter (fun e => sinceOK e.published_at t)
  | none => q

/-- `ndb.delete_multi_async([x.key for x in entries])`. -/
def deleteKeys (s : List Entry) (ks : List (Nat × String)) : List Entry :=
  s.filter (fun e => decide (¬e.ekey ∈ ks))

/-- One `fetch_page(25)`-and-delete round of `Entry.delete_for_feed`,
with fuel for termination: repeat while the page is non-empty. -/
def deleteLoop : Nat → List Entry → Feed → List Entry
  | 0, s, _ => s
  | fuel + 1, s, f =>
    let page := (Entry.latest_for_feed s f).take 25
    if page = [] then s
    else deleteLoop fuel (deleteKeys s (page.map Entry.ekey)) f

/-- `Entry.delete_for_feed`: page through `latest_for_feed` 25 at a time,
deleting each page's keys. -/
def Entry.delete_for_feed (s : List Entry) (f : Feed) : List Entry :=
  deleteLoop (s.length + 1) s f

/-- The per-entry mutation of `Entry.drain_queue`: mark overflowed with
reason FEED_OVERFLOW and published (`published_at` is left unset). -/
def drainMark (e : Entry) : Entry :=
  { e with overflow := true, published := true,
           overflow_reason := OVERFLOW_REASON.FEED_OVERFLOW }

/-- One `fetch_page(25)`-and-mark round of `Entry.drain_queue`, with fuel
for termination: repeat while the page is non-empty. -/
def drainLoop : Nat → List Entry → Feed → List Entry
  | 0, s, _ => s
  | fuel + 1, s, f =>
    let page := (Entry.latest_unpublished s f).take 25
    if page = [] then s
    else drainLoop fuel (page.foldl (fun acc e => putEntry acc (drainMark e)) s) f

/-- `Entry.drain_queue`: page through `latest_unpublished` 25 at a time,
marking every entry published + overflow(FEED_OVERFLOW). -/
def Entry.drain_queue (s : List Entry) (f : Feed) : List Entry :=
  drainLoop (s.length + 1) s f

/-- Outcome of the outbound POST to the external posting API: either the
`urlfetch` raised (caught: `log and return`), or a response status code. -/
inductive PostResp where
  | netFail
  | status (code : Nat)
  deriving DecidableEq, Repr

/-- The fall-through tail of `Entry.publish_entry`: `self.published = True;
self.published_at = datetime.now(); yield self.put_async()`. -/
def finishPublish (db : DB) (e : Entry) (now : Int) : DB × Bool :=
  ({ db with entries :=
      putEntry db.entries { e with published := true, published_at := some now } },
   false)

/-- `Entry.publish_entry(feed)`: re-fetch the owning feed, cascade-delete an
orphaned feed, POST the entry, then branch on the status code (401 sets the
feed to NEEDS_REAUTH, 400 marks the entry overflow/MALFORMED, any other
non-200 code raises); every non-raising response path falls through to
marking the entry published and persisting it.  The second component is
`true` when the tasklet raises. -/
def Entry.publish_entry (db : DB) (e : Entry) (now : Int) (r : PostResp) :
    DB × Bool :=
  match getFeed db.feeds e.feedId with
  | none => (db, true)
  | some feed =>
    if feed.userId = none then
      ({ entries := Entry.delete_for_feed db.entries feed,
         feeds := removeFeed db.feeds feed.id }, false)
    else
      match r with
      | .netFail => (db, false)
      | .status code =>
        if code = 401 then
          finishPublish
            { db with feeds := putFeed db.feeds { feed with status := FEED_STATE.NEEDS_REAUTH } }
            e now
        else if code = 200 then
          finishPublish db e now
        else if code = 400 then
          finishPublish db
            { e with overflow := true, overflow_reason := OVERFLOW_REASON.MALFORMED } now
        else
          (db, true)

/-- Remaining budget of `Entry.publish_for_feed`: configured max minus the
count of entries published inside the rolling window. -/
def computedBudget (db : DB) (f : Feed) (now : Int) : Int :=
  let minutes_schedule : Int :=
    if f.manual_control then f.schedule_period else DEFAULT_PERIOD_SCHEDULE
  let max_stories : Int :=
    if f.manual_control then f.max_stories_per_period else MAX_STORIES_PER_PERIOD
  max_stories - (Entry.latest_published db.entries f (some (now - minutes_schedule))).length

/-- `max_stories_to_publish = max_stories_to_publish or 1` under
`skip_queue`: Python `or` replaces only the falsy value `0`. -/
def effectiveBudget (skip_queue : Bool) (b : Int) : Int :=
  if skip_queue then (if b = 0 then 1 else b) else b

/-- The entries `Entry.publish_for_feed` fetches:
`latest_unpublished(feed).fetch(max_stories_to_publish)`. -/
def publishSelection (db : DB) (f : Feed) (skip_queue : Bool) (now : Int) :
    List Entry :=
  (Entry.latest_unpublished db.entries f).take
    (effectiveBudget skip_queue (computedBudget db f now)).toNat

/-- The publish loop of `Entry.publish_for_feed`: sequentially publish each
fetched entry, counting posts; an entry whose publish raises aborts the
loop and re-raises. -/
def publishLoop (db : DB) (es : List Entry) (now : Int)
    (resp : Entry → PostResp) : DB × Nat × Bool :=
  match es with
  | [] => (db, 0, false)
  | e :: rest =>
    let r := Entry.publish_entry db e now (resp e)
    if r.2 then (r.1, 0, true)
    else
      let rec' := publishLoop r.1 rest now resp
      (rec'.1, rec'.2.1 + 1, rec'.2.2)

/-- `Entry.publish_for_feed(feed, skip_queue)`: compute the rolling-window
budget, adjust it under `skip_queue`, fetch that many `latest_unpublished`
entries and publish them sequentially.  Returns the store, `entries_posted`,
and whether the tasklet raised. -/
def Entry.publish_for_feed (db : DB) (f : Feed) (skip_queue : Bool) (now : Int)
    (resp : Entry → PostResp) : DB × Nat × Bool :=
  let b := computedBudget db f now
  if b > 0 ∨ skip_queue = true then
    publishLoop db (publishSelection db f skip_queue now) now resp
  else
    (db, 0, false)

/-- A parsed feed item, reduced to its stable guid (`guid_for_item`); the
enrichment collaborator consumes the item. -/
structure Item where
  guid : String
  deriving DecidableEq, Repr

/-- The field values produced by successful item enrichment. -/
structure Enriched where
  title : String
  link : String
  summary : String
  deriving DecidableEq, Repr

/-- The `creating=True` placeholder persisted for a new guid:
`cls(key=keys_by_guid.get(x), guid=x, creating=True)` with ndb defaults. -/
def reservationEntry (f : Feed) (g : String) (now : Int) : Entry :=
  { feedId := f.id, guid := g, creating := true, title := none, link := none,
    summary := none, added := now, published := false, overflow := false,
    overflow_reason := 0, published_at := none }

/-- Modelled from the spec: `prepare_entry_from_item` lives in `poster.py`,
which is not part of the sources.  Enrichment populates the reserved entry's
content fields and clears `creating`; on first import with the overflow flag
the entry is marked already handled (`published = overflow`) with the given
overflow reason. -/
def populateEnriched (e : Entry) (k : Enriched) (overflow : Bool)
    (reason : Nat) (published : Bool) : Entry :=
  { e with creating := false, title := some k.title, link := some k.link,
           summary := some k.summary, overflow := overflow,
           overflow_reason := reason, published := published }

/-- The distinct stable guids of the incoming items:
`keys_by_guid = {guid_for_item(item): ... for item in parsed_feed.entries}`. -/
def ingestGuids (items : List Item) : List String :=
  (items.map Item.guid).dedup

/-- `old_guids`: the incoming guids whose `(feed, guid)` key already holds
an entity. -/
def oldGuids (s : List Entry) (f : Feed) (items : List Item) : List String :=
  (ingestGuids items).filter (fun g => presentGuid s f g)

/-- `new_guids = filter(lambda x: x not in old_guids, keys_by_guid.keys())`. -/
def newGuids (s : List Entry) (f : Feed) (items : List Item) : List String :=
  (ingestGuids items).filter (fun g => decide (¬g ∈ oldGuids s f items))

/-- The entity persisted for a new guid by the second `put_multi`: the
enriched entry when `prepare_entry_from_item` yields values for its item,
else the untouched `creating=True` reservation. -/
def finalNewEntry (items : List Item) (f : Feed) (overflow : Bool)
    (reason : Nat) (enrich : Item → Option Enriched) (now : Int)
    (g : String) : Entry :=
  match (items.find? (fun it => decide (it.guid = g))).bind enrich with
  | some k => populateEnriched (reservationEntry f g now) k overflow reason overflow
  | none => reservationEntry f g now

/-- `Entry.process_parsed_feed(parsed_feed, feed, overflow, overflow_reason)`:
batch-lookup the incoming guids, partition them into old (present) and new
(absent), persist a `creating=True` reservation per new guid, enrich each
reservation (a falsy enrichment leaves the placeholder as is), persist, and
return `(new_guids, old_guids)` with the updated store. -/
def Entry.process_parsed_feed (s : List Entry) (items : List Item) (f : Feed)
    (overflow : Bool) (reason : Nat) (enrich : Item → Option Enriched)
    (now : Int) : (List String × List String) × List Entry :=
  let new_guids := newGuids s f items
  let s₁ := (new_guids.map (fun g => reservationEntry f g now)).foldl putEntry s
  let finals := new_guids.map (finalNewEntry items f overflow reason enrich now)
  ((new_guids, oldGuids s f items), finals.foldl putEntry s₁)

/-- `Entry.update_for_feed(feed, publish, skip_queue, overflow,
overflow_reason)`, after the fetch collaborator returned `status_code` and
the parsed items: on a non-304 response ingest the items and evaluate the
drain condition (at least 5 guids, all of them new); then optionally publish
and optionally drain.  Returns the store, `num_new_items`, and whether a
publish raise propagated. -/
def Entry.update_for_feed (db : DB) (f : Feed) (publish skip_queue overflow : Bool)
    (reason : Nat) (status_code : Nat) (items : List Item)
    (enrich : Item → Option Enriched) (now : Int) (resp : Entry → PostResp) :
    DB × Nat × Bool :=
  if status_code ≠ 304 then
    let r := Entry.process_parsed_feed db.entries items f overflow reason enrich now
    let new_guids := r.1.1
    let old_guids := r.1.2
    let num_new_items := new_guids.length
    let drain_queue : Bool :=
      decide (new_guids.length + old_guids.length ≥ 5 ∧
        new_guids.length = new_guids.length + old_guids.length)
    let db₁ : DB := { db with entries := r.2 }
    let pub := if publish then Entry.publish_for_feed db₁ f skip_queue now resp
               else (db₁, 0, false)
    if pub.2.2 then (pub.1, num_new_items, true)
    else
      let db₃ := if drain_queue then
          { pub.1 with entries := Entry.drain_queue pub.1.entries f }
        else pub.1
      (db₃, num_new_items, false)
  else
    let pub := if publish then Entry.publish_for_feed db f skip_queue now resp
               else (db, 0, false)
    (pub.1, 0, pub.2.2)

/-- `Feed.reauthorize(user)`: iterate the user's feeds; the guard tests the
truthiness of the constant `FEED_STATE.NEEDS_REAUTH` itself, and on success
sets the feed's status to ACTIVE and persists it. -/
def Feed.reauthorize (fs : List Feed) (userId : Nat) : List Feed :=
  fs.map (fun f =>
    if f.userId = some userId then
      (if FEED_STATE.NEEDS_REAUTH ≠ 0 then { f with status := FEED_STATE.ACTIVE } else f)
    else f)

/-- Digest algorithms passed to (or defaulted by) `hmac.new`. -/
inductive DigestMod where
  | md5
  | sha1
  deriving DecidableEq, Repr

/-- The digest used by `feed_push_update`: `hmac.new(feed.hub_secret, data)`
passes no `digestmod`, and the Python 2 `hmac.new` default is MD5. -/
def hubPushDigestmod : DigestMod := DigestMod.md5

/-- The digest used by `instagram_push_update`:
`hmac.new(str(instagram_client_secret), data, digestmod=hashlib.sha1)`. -/
def instagramPushDigestmod : DigestMod := DigestMod.sha1

/-- Responses of the `feed_push_update` webhook handler. -/
inductive PushResult where
  | notFound
  | emptyOk
  deriving DecidableEq, Repr

/-- The `feed_push_update` view: look up the feed; when a hub secret is
configured, compare the `X-Hub-Signature` header against the HMAC of the raw
body under the handler's digest and silently no-op (empty response) on
mismatch; otherwise ingest the pushed content (`overflow=False`) and run the
publish scheduler without `skip_queue`.  `hmacF` is the external HMAC
collaborator (digest, key, message), `parse` the feedparser collaborator. -/
def feed_push_update (hmacF : DigestMod → String → String → String)
    (db : DB) (feed? : Option Feed) (body : String)
    (x_hub_signature : Option String) (parse : String → List Item)
    (enrich : Item → Option Enriched) (now : Int) (resp : Entry → PostResp) :
    DB × PushResult :=
  match feed? with
  | none => (db, PushResult.notFound)
  | some feed =>
    let proceed : Bool :=
      match feed.hub_secret with
      | some secret =>
        decide (x_hub_signature = some (hmacF hubPushDigestmod secret body))
      | none => true
    if proceed then
      let r := Entry.process_parsed_feed db.entries (parse body) feed false
        OVERFLOW_REASON.BACKLOG enrich now
      let pub := Entry.publish_for_feed { db with entries := r.2 } feed false now resp
      (pub.1, PushResult.emptyOk)
    else
      (db, PushResult.emptyOk)

/-! ### Store lemmas -/

theorem putEntry_map_ekey (s : List Entry) (e : Entry) :
    (putEntry s e).map Entry.ekey =
      if s.any (fun x => decide (x.ekey = e.ekey)) then s.map Entry.ekey
      else s.map Entry.ekey ++ [e.ekey] := by
  unfold putEntry
  split
  · rw [List.map_map]
    refine List.map_congr_left ?_
    intro x _
    by_cases h : x.ekey = e.ekey
    · simp [h]
    · simp [h]
  · simp

theorem wfE_putEntry {s : List Entry} (e : Entry) (hs : wfE s) :
    wfE (putEntry s e) := by
  unfold wfE
  rw [putEntry_map_ekey]
  split
  · exact hs
  · rename_i h
    rw [Bool.not_eq_true, List.any_eq_false] at h
    have : e.ekey ∉ s.map Entry.ekey := by
      rw [List.mem_map]
      rintro ⟨x, hx, hk⟩
      exact (h x hx) (by simpa using hk)
    have hs' : (s.map Entry.ekey).Nodup := hs
    simp [List.nodup_append, hs', this]

theorem wfE_foldl_putEntry {s : List Entry} (l : List Entry) (hs : wfE s) :
    wfE (l.foldl putEntry s) := by
  induction l generalizing s with
  | nil => exact hs
  | cons e t ih => exact ih (wfE_putEntry e hs)

theorem self_mem_putEntry (s : List Entry) (e : Entry) : e ∈ putEntry s e := by
  unfold putEntry
  split
  · rename_i h
    rw [List.any_eq_true] at h
    obtain ⟨x, hx, hk⟩ := h
    exact List.mem_map.mpr ⟨x, hx, by simp [of_decide_eq_true hk]⟩
  · simp

theorem mem_putEntry_of_ne {s : List Entry} {x : Entry} (e : Entry)
    (hx : x ∈ s) (hne : x.ekey ≠ e.ekey) : x ∈ putEntry s e := by
  unfold putEntry
  split
  · exact List.mem_map.mpr ⟨x, hx, by simp [hne]⟩
  · simp [hx]

theorem mem_foldl_putEntry_of_ne {s : List Entry} {x : Entry} (l : List Entry)
    (hx : x ∈ s) (hne : ∀ e ∈ l, x.ekey ≠ e.ekey) : x ∈ l.foldl putEntry s := by
  induction l generalizing s with
  | nil => exact hx
  | cons e t ih =>
    exact ih (mem_putEntry_of_ne e hx (hne e (by simp)))
      (fun e' he' => hne e' (by simp [he']))

theorem mem_foldl_putEntry_of_nodup (l : List Entry) :
    ∀ s : List Entry, (l.map Entry.ekey).Nodup → ∀ {e : Entry}, e ∈ l →
      e ∈ l.foldl putEntry s := by
  induction l with
  | nil => intro s _ e he; cases he
  | cons a t ih =>
    intro s hl e he
    rw [List.map_cons, List.nodup_cons] at hl
    rcases List.mem_cons.mp he with he | he
    · subst he
      refine mem_foldl_putEntry_of_ne t (self_mem_putEntry s e) ?_
      intro x hx hk
      apply hl.1
      rw [hk]
      exact List.mem_map_of_mem Entry.ekey hx
    · exact ih (putEntry s a) hl.2 he

theorem wfE_unique {s : List Entry} (hs : wfE s) {x y : Entry}
    (hx : x ∈ s) (hy : y ∈ s) (hk : x.ekey = y.ekey) : x = y :=
  List.inj_on_of_nodup_map hs hx hy hk

theorem presentGuid_iff {s : List Entry} {f : Feed} {g : String} :
    presentGuid s f g = true ↔ ∃ e ∈ s, e.ekey = (f.id, g) := by
  simp [presentGuid]

theorem presentGuid_putEntry_mono {s : List Entry} {f : Feed} {g : String}
    (e : Entry) (h : presentGuid s f g = true) :
    presentGuid (putEntry s e) f g = true := by
  rw [presentGuid_iff] at h ⊢
  obtain ⟨x, hx, hk⟩ := h
  by_cases hke : x.ekey = e.ekey
  · exact ⟨e, self_mem_putEntry s e, hke ▸ hk⟩
  · exact ⟨x, mem_putEntry_of_ne e hx hke, hk⟩

theorem presentGuid_foldl_mono {s : List Entry} {f : Feed} {g : String}
    (l : List Entry) (h : presentGuid s f g = true) :
    presentGuid (l.foldl putEntry s) f g = true := by
  induction l generalizing s with
  | nil => exact h
  | cons e t ih => exact ih (presentGuid_putEntry_mono e h)

theorem presentGuid_foldl_of_mem {f : Feed} {g : String} (l : List Entry) :
    ∀ s : List Entry, ∀ {e : Entry}, e ∈ l → e.ekey = (f.id, g) →
      presentGuid (l.foldl putEntry s) f g = true := by
  induction l with
  | nil => intro _ _ he _; cases he
  | cons a t ih =>
    intro s e he hk
    rcases List.mem_cons.mp he with he | he
    · subst he
      exact presentGuid_foldl_mono t
        (presentGuid_iff.mpr ⟨e, self_mem_putEntry s e, hk⟩)
    · exact ih (putEntry s a) he hk

/-- Number of entities carrying a given key. -/
def countKey (s : List Entry) (k : Nat × String) : Nat :=
  s.countP (fun e => decide (e.ekey = k))

theorem countKey_le_one {s : List Entry} (hs : wfE s) (k : Nat × String) :
    countKey s k ≤ 1 := by
  induction s with
  | nil => simp [countKey]
  | cons e t ih =>
    have hs' : (t.map Entry.ekey).Nodup ∧ e.ekey ∉ t.map Entry.ekey := by
      unfold wfE at hs
      rw [List.map_cons, List.nodup_cons] at hs
      exact ⟨hs.2, hs.1⟩
    simp only [countKey, List.countP_cons]
    by_cases hek : e.ekey = k
    · have h0 : t.countP (fun x => decide (x.ekey = k)) = 0 := by
        rw [List.countP_eq_zero]
        intro a ha hak
        apply hs'.2
        rw [hek, ← of_decide_eq_true hak]
        exact List.mem_map_of_mem Entry.ekey ha
      simp [hek, countKey, h0]
    · have ht := ih hs'.1
      simp only [countKey] at ht
      simp [hek, ht]

/-! ### Query membership lemmas -/

theorem mem_ite_sort {c : Prop} [Decidable c] (r : Entry → Entry → Prop)
    [DecidableRel r] {q : List Entry} {x : Entry} :
    x ∈ (if c then List.insertionSort r q else q) ↔ x ∈ q := by
  split <;> simp

theorem mem_latest_unpublished {s : List Entry} {f : Feed} {x : Entry} :
    x ∈ Entry.latest_unpublished s f ↔
      x ∈ s ∧ x.published = false ∧ x.creating = false ∧ x.feedId = f.id := by
  simp [Entry.latest_unpublished, List.mem_filter, and_assoc]

theorem mem_latest_for_feed {s : List Entry} {f : Feed} {x : Entry} :
    x ∈ Entry.latest_for_feed s f ↔
      x ∈ s ∧ x.creating = false ∧ x.feedId = f.id := by
  simp [Entry.latest_for_feed, List.mem_filter, and_assoc]

theorem mem_latest_published_imp {s : List Entry} {f : Feed}
    {since : Option Int} {x : Entry}
    (h : x ∈ Entry.latest_published s f since) :
    x ∈ s ∧ x.published = true ∧ x.creating = false ∧ x.feedId = f.id := by
  unfold Entry.latest_published at h
  have h' : x ∈ s.filter (fun e =>
      decide (e.published = true ∧ e.creating = false ∧ e.feedId = f.id)) := by
    cases since with
    | none => simpa using h
    | some t =>
      have := (List.mem_filter.mp h).1
      simpa using this
  have := List.mem_filter.mp h'
  simp only [decide_eq_true_eq] at this
  exact ⟨this.1, this.2.1, this.2.2.1, this.2.2.2⟩

theorem mem_latest_imp {s : List Entry} {f : Feed} {io : Bool}
    {cats : Option (List Nat)} {ob : String} {x : Entry}
    (h : x ∈ Entry.latest s f io cats ob) :
    x ∈ s ∧ x.published = true ∧ x.creating = false ∧ x.overflow = io ∧
      x.feedId = f.id := by
  unfold Entry.latest at h
  have h' : x ∈ s.filter (fun e =>
      decide (e.published = true ∧ e.creating = false ∧
        e.overflow = io ∧ e.feedId = f.id)) := by
    by_cases hio : io = true
    · simp only [hio, if_pos rfl] at h
      have h'' := (List.mem_filter.mp h).1
      rw [mem_ite_sort paDesc, mem_ite_sort addedAsc] at h''
      simpa [hio] using h''
    · have hio' : io = false := by simpa using hio
      simp only [hio', Bool.false_eq_true, if_false] at h
      rw [mem_ite_sort paDesc, mem_ite_sort addedAsc] at h
      simpa [hio'] using h
  have := List.mem_filter.mp h'
  simp only [decide_eq_true_eq] at this
  exact ⟨this.1, this.2.1, this.2.2.1, this.2.2.2.1, this.2.2.2.2⟩

/-- Concrete reservation entry used to witness the C6 theorem. -/
def entC6 : Entry :=
  { feedId := 1, guid := "r", creating := true, title := none, link := none,
    summary := none, added := 0, published := false, overflow := false,
    overflow_reason := 0, published_at := none }

/-- Concrete feed used to witness the C6 theorem. -/
def feedC6 : Feed :=
  { id := 1, userId := some 7, status := FEED_STATE.ACTIVE,
    manual_control := false, schedule_period := 5, max_stories_per_period := 1,
    hub_secret := none }

/-- C6: an entry whose `creating` flag is set (an in-flight reservation)
appears in no publish-eligible query result: `latest_unpublished`,
`latest_published`, `latest` and `latest_for_feed` all exclude it. -/
theorem creating_excluded_from_queries (s : List Entry) (f : Feed)
    (since : Option Int) (io : Bool) (cats : Option (List Nat)) (ob : String)
    (e : Entry) (h : e.creating = true) :
    e ∉ Entry.latest_unpublished s f ∧ e ∉ Entry.latest_published s f since ∧
      e ∉ Entry.latest s f io cats ob ∧ e ∉ Entry.latest_for_feed s f := by
  refine ⟨fun hm => ?_, fun hm => ?_, fun hm => ?_, fun hm => ?_⟩
  · have := (mem_latest_unpublished.mp hm).2.2.1
    rw [h] at this; cases this
  · have := (mem_latest_published_imp hm).2.2.1
    rw [h] at this; cases this
  · have := (mem_latest_imp hm).2.2.1
    rw [h] at this; cases this
  · have := (mem_latest_for_feed.mp hm).2.1
    rw [h] at this; cases this

/-- Witness for the C6 theorem at a concrete store holding only a
reservation. -/
theorem creating_excluded_from_queries_witness :
    entC6 ∉ Entry.latest_unpublished [entC6] feedC6 ∧
      entC6 ∉ Entry.latest_published [entC6] feedC6 (some 0) ∧
      entC6 ∉ Entry.latest [entC6] feedC6 true none "added" ∧
      entC6 ∉ Entry.latest_for_feed [entC6] feedC6 :=
  creating_excluded_from_queries [entC6] feedC6 (some 0) true none "added"
    entC6 rfl

/-! ### Publisher response handling (C1, C3) -/

/-- Concrete unpublished entry used to exercise `publish_entry` at 401. -/
def entC1 : Entry :=
  { feedId := 1, guid := "a", creating := false, title := none, link := none,
    summary := none, added := 0, published := false, overflow := false,
    overflow_reason := 0, published_at := none }

/-- Concrete feed used to exercise `publish_entry` at 401. -/
def feedC1 : Feed :=
  { id := 1, userId := some 7, status := FEED_STATE.ACTIVE,
    manual_control := false, schedule_period := 5, max_stories_per_period := 1,
    hub_secret := none }

/-- Concrete store used to exercise `publish_entry` at 401. -/
def dbC1 : DB := { entries := [entC1], feeds := [feedC1] }

/-- C1: what `publish_entry` actually does on a 401 response.  The feed is
set to NEEDS_REAUTH and persisted, but control falls through the
status-code chain, so the entry is also marked `published=True` with
`published_at` set and persisted: no entry in the store stays unpublished,
contradicting the claim that a 401 never mutates the entry. -/
theorem publish_entry_401_behavior :
    (Entry.publish_entry dbC1 entC1 100 (PostResp.status 401)).2 = false ∧
    getFeed (Entry.publish_entry dbC1 entC1 100 (PostResp.status 401)).1.feeds
        feedC1.id = some { feedC1 with status := FEED_STATE.NEEDS_REAUTH } ∧
    { entC1 with published := true, published_at := some 100 }
      ∈ (Entry.publish_entry dbC1 entC1 100 (PostResp.status 401)).1.entries ∧
    (∀ e ∈ (Entry.publish_entry dbC1 entC1 100 (PostResp.status 401)).1.entries,
      e.published = true) := by
  decide

/-- The terminal state a 400 response drives an entry into. -/
def entryMalformed (e : Entry) (now : Int) : Entry :=
  { e with overflow := true, overflow_reason := OVERFLOW_REASON.MALFORMED,
           published := true, published_at := some now }

/-- C3: a 400 response leaves the entry terminal.  `publish_entry` persists
the entry with `published=true, overflow=true, overflow_reason=MALFORMED`,
raises nothing, and an entry in that state is excluded from every
`latest_unpublished` (publish-eligible) query over any store. -/
theorem publish_entry_400_terminal (db : DB) (e : Entry) (now : Int) (fd : Feed)
    (hget : getFeed db.feeds e.feedId = some fd) (hparent : fd.userId ≠ none) :
    Entry.publish_entry db e now (PostResp.status 400) =
      ({ db with entries := putEntry db.entries (entryMalformed e now) }, false) ∧
    entryMalformed e now
      ∈ (Entry.publish_entry db e now (PostResp.status 400)).1.entries ∧
    (∀ (s' : List Entry) (g : Feed),
      entryMalformed e now ∉ Entry.latest_unpublished s' g) := by
  have h1 : Entry.publish_entry db e now (PostResp.status 400) =
      ({ db with entries := putEntry db.entries (entryMalformed e now) }, false) := by
    unfold Entry.publish_entry
    rw [hget]
    simp [hparent, finishPublish, entryMalformed]
  refine ⟨h1, ?_, ?_⟩
  · rw [h1]
    exact self_mem_putEntry _ _
  · intro s' g hm
    have := (mem_latest_unpublished.mp hm).2.1
    simp [entryMalformed] at this

/-- Concrete entry used to witness the C3 theorem. -/
def entC3 : Entry :=
  { feedId := 2, guid := "m", creating := false, title := none, link := none,
    summary := none, added := 3, published := false, overflow := false,
    overflow_reason := 0, published_at := none }

/-- Concrete feed used to witness the C3 theorem. -/
def feedC3 : Feed :=
  { id := 2, userId := some 8, status := FEED_STATE.ACTIVE,
    manual_control := false, schedule_period := 5, max_stories_per_period := 1,
    hub_secret := none }

/-- Concrete store used to witness the C3 theorem. -/
def dbC3 : DB := { entries := [entC3], feeds := [feedC3] }

/-- Witness for the C3 theorem at a concrete store. -/
theorem publish_entry_400_terminal_witness :
    Entry.publish_entry dbC3 entC3 50 (PostResp.status 400) =
      ({ dbC3 with entries := putEntry dbC3.entries (entryMalformed entC3 50) }, false) ∧
    entryMalformed entC3 50
      ∈ (Entry.publish_entry dbC3 entC3 50 (PostResp.status 400)).1.entries ∧
    (∀ (s' : List Entry) (g : Feed),
      entryMalformed entC3 50 ∉ Entry.latest_unpublished s' g) :=
  publish_entry_400_terminal dbC3 entC3 50 feedC3 (by decide) (by decide)

/-! ### Reauthorization sweep (C10) -/

/-- Concrete disabled feed used to witness the C10 theorem. -/
def feedC10 : Feed :=
  { id := 3, userId := some 9, status := FEED_STATE.DISABLED,
    manual_control := false, schedule_period := 5, max_stories_per_period := 1,
    hub_secret := none }

/-- C10: `Feed.reauthorize` guards on the truthiness of the constant
`FEED_STATE.NEEDS_REAUTH` rather than the feed's own status, so it rewrites
every feed of the user to ACTIVE and persists it, regardless of the feed's
current status. -/
theorem reauthorize_rewrites_all_user_feeds (fs : List Feed) (uid : Nat) :
    Feed.reauthorize fs uid =
      fs.map (fun f => if f.userId = some uid then
        { f with status := FEED_STATE.ACTIVE } else f) ∧
    ∀ f ∈ fs, f.userId = some uid →
      { f with status := FEED_STATE.ACTIVE } ∈ Feed.reauthorize fs uid := by
  have h1 : Feed.reauthorize fs uid =
      fs.map (fun f => if f.userId = some uid then
        { f with status := FEED_STATE.ACTIVE } else f) := by
    unfold Feed.reauthorize
    refine List.map_congr_left ?_
    intro f _
    simp [FEED_STATE.NEEDS_REAUTH]
  refine ⟨h1, ?_⟩
  intro f hf hu
  rw [h1]
  exact List.mem_map.mpr ⟨f, hf, by rw [if_pos hu]⟩

/-- Witness for the C10 theorem: a feed that is DISABLED (not awaiting
reauthorization) is also rewritten to ACTIVE. -/
theorem reauthorize_rewrites_all_user_feeds_witness :
    { feedC10 with status := FEED_STATE.ACTIVE } ∈ Feed.reauthorize [feedC10] 9 :=
  (reauthorize_rewrites_all_user_feeds [feedC10] 9).2 feedC10 (by decide) (by decide)

/-! ### Ingestion (C5) -/

theorem ekey_reservation (f : Feed) (g : String) (now : Int) :
    (reservationEntry f g now).ekey = (f.id, g) := rfl

theorem ekey_finalNewEntry (items : List Item) (f : Feed) (o : Bool)
    (rsn : Nat) (enrich : Item → Option Enriched) (now : Int) (g : String) :
    (finalNewEntry items f o rsn enrich now g).ekey = (f.id, g) := by
  unfold finalNewEntry
  cases (items.find? (fun it => decide (it.guid = g))).bind enrich with
  | none => rfl
  | some k => rfl

theorem nodup_newGuids (s : List Entry) (f : Feed) (items : List Item) :
    (newGuids s f items).Nodup :=
  (List.nodup_dedup (items.map Item.guid)).filter _

theorem newGuids_eq (s : List Entry) (f : Feed) (items : List Item) :
    newGuids s f items =
      (ingestGuids items).filter (fun g => !(presentGuid s f g)) := by
  unfold newGuids
  refine List.filter_congr ?_
  intro g hg
  by_cases hp : presentGuid s f g = true
  · have hm : g ∈ oldGuids s f items := List.mem_filter.mpr ⟨hg, hp⟩
    simp [hm, hp]
  · have hm : g ∉ oldGuids s f items := fun hm => hp (List.mem_filter.mp hm).2
    simp [hm, eq_false_of_ne_true hp]

theorem mem_oldGuids {s : List Entry} {f : Feed} {items : List Item}
    {g : String} :
    g ∈ oldGuids s f items ↔
      g ∈ ingestGuids items ∧ presentGuid s f g = true :=
  List.mem_filter

theorem mem_newGuids {s : List Entry} {f : Feed} {items : List Item}
    {g : String} :
    g ∈ newGuids s f items ↔
      g ∈ ingestGuids items ∧ presentGuid s f g = false := by
  rw [newGuids_eq, List.mem_filter, Bool.not_eq_true']

theorem newGuids_append_oldGuids_perm (s : List Entry) (f : Feed)
    (items : List Item) :
    (newGuids s f items ++ oldGuids s f items).Perm (ingestGuids items) := by
  rw [newGuids_eq]
  exact List.perm_append_comm.trans
    (List.filter_append_perm (fun g => presentGuid s f g) (ingestGuids items))

theorem presentGuid_process {s : List Entry} {items : List Item} {f : Feed}
    {o : Bool} {rsn : Nat} {enrich : Item → Option Enriched} {now : Int}
    {g : String} (hg : g ∈ ingestGuids items) :
    presentGuid (Entry.process_parsed_feed s items f o rsn enrich now).2 f g
      = true := by
  unfold Entry.process_parsed_feed
  by_cases hp : presentGuid s f g = true
  · exact presentGuid_foldl_mono _ (presentGuid_foldl_mono _ hp)
  · have hnew : g ∈ newGuids s f items :=
      mem_newGuids.mpr ⟨hg, eq_false_of_ne_true hp⟩
    exact presentGuid_foldl_mono _
      (presentGuid_foldl_of_mem _ _
        (List.mem_map_of_mem (fun g => reservationEntry f g now) hnew)
        (ekey_reservation f g now))

theorem wfE_process {s : List Entry} {items : List Item} {f : Feed} {o : Bool}
    {rsn : Nat} {enrich : Item → Option Enriched} {now : Int} (hs : wfE s) :
    wfE (Entry.process_parsed_feed s items f o rsn enrich now).2 :=
  wfE_foldl_putEntry _ (wfE_foldl_putEntry _ hs)

theorem oldGuids_process (s : List Entry) (items : List Item) (f : Feed)
    (o : Bool) (rsn : Nat) (enrich : Item → Option Enriched) (now : Int) :
    oldGuids (Entry.process_parsed_feed s items f o rsn enrich now).2 f items
      = ingestGuids items := by
  unfold oldGuids
  rw [List.filter_eq_self]
  intro g hg
  exact presentGuid_process hg

theorem newGuids_process (s : List Entry) (items : List Item) (f : Feed)
    (o : Bool) (rsn : Nat) (enrich : Item → Option Enriched) (now : Int) :
    newGuids (Entry.process_parsed_feed s items f o rsn enrich now).2 f items
      = [] := by
  rw [newGuids_eq, List.filter_eq_nil_iff]
  intro g hg
  simp [presentGuid_process hg]

/-- C5: ingestion is an idempotent upsert keyed by `(feed, guid)`.  The
returned pair partitions the incoming guids into absent (new) and present
(old); the resulting store keeps at most one entity per `(feed, guid)` key;
and a second run over the same content reports every guid as old, creates
nothing, and leaves the store exactly as the first run left it. -/
theorem process_parsed_feed_idempotent (s : List Entry) (items : List Item)
    (f : Feed) (o : Bool) (rsn : Nat) (enrich : Item → Option Enriched)
    (now : Int) (hwf : wfE s) :
    (∀ g ∈ ingestGuids items,
       (g ∈ (Entry.process_parsed_feed s items f o rsn enrich now).1.1 ↔
          presentGuid s f g = false) ∧
       (g ∈ (Entry.process_parsed_feed s items f o rsn enrich now).1.2 ↔
          presentGuid s f g = true)) ∧
    ((Entry.process_parsed_feed s items f o rsn enrich now).1.1 ++
       (Entry.process_parsed_feed s items f o rsn enrich now).1.2).Perm
      (ingestGuids items) ∧
    wfE (Entry.process_parsed_feed s items f o rsn enrich now).2 ∧
    (∀ k, countKey (Entry.process_parsed_feed s items f o rsn enrich now).2 k
      ≤ 1) ∧
    Entry.process_parsed_feed
        (Entry.process_parsed_feed s items f o rsn enrich now).2 items f o rsn
        enrich now =
      (([], ingestGuids items),
        (Entry.process_parsed_feed s items f o rsn enrich now).2) := by
  refine ⟨?_, ?_, wfE_process hwf, fun k => countKey_le_one (wfE_process hwf) k, ?_⟩
  · intro g hg
    constructor
    · show g ∈ newGuids s f items ↔ _
      rw [mem_newGuids]
      exact ⟨fun h => h.2, fun h => ⟨hg, h⟩⟩
    · show g ∈ oldGuids s f items ↔ _
      rw [mem_oldGuids]
      exact ⟨fun h => h.2, fun h => ⟨hg, h⟩⟩
  · exact newGuids_append_oldGuids_perm s f items
  · have hnew := newGuids_process s items f o rsn enrich now
    have hold := oldGuids_process s items f o rsn enrich now
    conv_lhs => rw [Entry.process_parsed_feed]
    rw [hnew, hold]
    simp

/-- Concrete items used to witness the C5 theorem. -/
def itemsC5 : List Item := [{ guid := "g1" }, { guid := "g2" }]

/-- Concrete enrichment collaborator used to witness the C5 theorem. -/
def enrC5 : Item → Option Enriched :=
  fun it => some { title := it.guid, link := "l", summary := "s" }

/-- Concrete feed used to witness the C5 theorem. -/
def feedC5 : Feed :=
  { id := 4, userId := some 2, status := FEED_STATE.ACTIVE,
    manual_control := false, schedule_period := 5, max_stories_per_period := 1,
    hub_secret := none }

/-- Witness for the C5 theorem: re-ingesting two fresh guids reports both as
old the second time, creates nothing and leaves the store unchanged. -/
theorem process_parsed_feed_idempotent_witness :
    Entry.process_parsed_feed
        (Entry.process_parsed_feed [] itemsC5 feedC5 false 1 enrC5 5).2 itemsC5
        feedC5 false 1 enrC5 5 =
      (([], ingestGuids itemsC5),
        (Entry.process_parsed_feed [] itemsC5 feedC5 false 1 enrC5 5).2) :=
  (process_parsed_feed_idempotent [] itemsC5 feedC5 false 1 enrC5 5
    (by decide)).2.2.2.2

/-! ### Pagination loops (C4, C8) -/

/-- Publish eligibility: the filter of `latest_unpublished`. -/
def eligU (f : Feed) (e : Entry) : Bool :=
  decide (e.published = false ∧ e.creating = false ∧ e.feedId = f.id)

/-- Feed-child visibility: the filter of `latest_for_feed`. -/
def eligD (f : Feed) (e : Entry) : Bool :=
  decide (e.creating = false ∧ e.feedId = f.id)

theorem latest_unpublished_eq (s : List Entry) (f : Feed) :
    Entry.latest_unpublished s f =
      List.insertionSort addedDesc (s.filter (eligU f)) := rfl

theorem latest_for_feed_eq (s : List Entry) (f : Feed) :
    Entry.latest_for_feed s f = s.filter (eligD f) := rfl

theorem drainMark_ekey (e : Entry) : (drainMark e).ekey = e.ekey := rfl

theorem eligU_drainMark (f : Feed) (e : Entry) :
    eligU f (drainMark e) = false := by
  simp [eligU, drainMark]

/-- What one drained entry becomes when the drain policy applies. -/
def markIfElig (f : Feed) (e : Entry) : Entry :=
  if eligU f e then drainMark e else e

theorem markIfElig_ekey (f : Feed) (e : Entry) :
    (markIfElig f e).ekey = e.ekey := by
  unfold markIfElig
  split <;> rfl

theorem countP_and_not_lt {α : Type} (p q : α → Bool) (l : List α)
    (h : ∃ a ∈ l, p a = true ∧ q a = true) :
    l.countP (fun x => p x && !q x) < l.countP p := by
  induction l with
  | nil =>
    obtain ⟨a, ha, _⟩ := h
    cases ha
  | cons a t ih =>
    rw [List.countP_cons, List.countP_cons]
    obtain ⟨b, hb, hbp, hbq⟩ := h
    rcases List.mem_cons.mp hb with rfl | hbt
    · have h1 : ¬((p b && !q b) = true) := by simp [hbp, hbq]
      rw [if_neg h1, if_pos hbp]
      have hle : t.countP (fun x => p x && !q x) ≤ t.countP p :=
        List.countP_mono_left (fun x _ hx => by
          rw [Bool.and_eq_true] at hx
          exact hx.1)
      omega
    · have hlt := ih ⟨b, hbt, hbp, hbq⟩
      have hle : (if (p a && !q a) = true then 1 else 0) ≤
          (if p a = true then 1 else 0) := by
        by_cases hpa : p a = true
        · simp [hpa]
          split <;> simp
        · simp [eq_false_of_ne_true hpa]
      omega

theorem pageKeys_nodup {s : List Entry} (hwf : wfE s) (p : Entry → Bool)
    (r : Entry → Entry → Prop) [DecidableRel r] (n : Nat) :
    (((List.insertionSort r (s.filter p)).take n).map Entry.ekey).Nodup := by
  have h2 : ((s.filter p).map Entry.ekey).Nodup :=
    List.Nodup.sublist ((List.filter_sublist s).map Entry.ekey) hwf
  have h3 : ((List.insertionSort r (s.filter p)).map Entry.ekey).Perm
      ((s.filter p).map Entry.ekey) :=
    (List.perm_insertionSort r (s.filter p)).map Entry.ekey
  have h4 := h3.nodup_iff.mpr h2
  exact List.Nodup.sublist
    ((List.take_sublist n (List.insertionSort r (s.filter p))).map Entry.ekey) h4

theorem markPage_eq (f : Feed) :
    ∀ (page s : List Entry), wfE s →
      (∀ e ∈ page, e ∈ s ∧ eligU f e = true) →
      (page.map Entry.ekey).Nodup →
      page.foldl (fun acc e => putEntry acc (drainMark e)) s =
        s.map (fun x =>
          if x.ekey ∈ page.map Entry.ekey then drainMark x else x) := by
  intro page
  induction page with
  | nil =>
    intro s _ _ _
    simp
  | cons e t ih =>
    intro s hwf hmem hkeys
    rw [List.map_cons, List.nodup_cons] at hkeys
    have he := hmem e (List.mem_cons_self e t)
    have hany : s.any (fun x => decide (x.ekey = (drainMark e).ekey)) = true :=
      List.any_eq_true.mpr ⟨e, he.1, by simp [drainMark_ekey]⟩
    have hput : putEntry s (drainMark e) =
        s.map (fun x => if x.ekey = e.ekey then drainMark x else x) := by
      unfold putEntry
      rw [if_pos hany]
      refine List.map_congr_left ?_
      intro x hx
      by_cases hxe : x.ekey = e.ekey
      · rw [if_pos (by rw [drainMark_ekey]; exact hxe), if_pos hxe]
        rw [wfE_unique hwf hx he.1 hxe]
      · rw [if_neg (by rw [drainMark_ekey]; exact hxe), if_neg hxe]
    have hwf' : wfE (putEntry s (drainMark e)) := wfE_putEntry _ hwf
    have hmem' : ∀ x ∈ t, x ∈ putEntry s (drainMark e) ∧ eligU f x = true := by
      intro x hx
      have hxs := hmem x (List.mem_cons_of_mem e hx)
      refine ⟨mem_putEntry_of_ne (drainMark e) hxs.1 ?_, hxs.2⟩
      rw [drainMark_ekey]
      intro hk
      exact hkeys.1 (hk ▸ List.mem_map_of_mem Entry.ekey hx)
    have hfold := ih (putEntry s (drainMark e)) hwf' hmem' hkeys.2
    show t.foldl (fun acc e => putEntry acc (drainMark e))
        (putEntry s (drainMark e)) = _
    rw [hfold, hput, List.map_map]
    refine List.map_congr_left ?_
    intro x hx
    simp only [Function.comp_apply, List.map_cons]
    by_cases hxe : x.ekey = e.ekey
    · have hnot : (drainMark x).ekey ∉ t.map Entry.ekey := by
        rw [drainMark_ekey, hxe]
        exact hkeys.1
      rw [if_pos hxe, if_neg hnot,
        if_pos (show x.ekey ∈ e.ekey :: t.map Entry.ekey by
          rw [hxe]
          exact List.mem_cons_self _ _)]
    · rw [if_neg hxe]
      by_cases hxt : x.ekey ∈ t.map Entry.ekey
      · rw [if_pos hxt, if_pos (List.mem_cons_of_mem e.ekey hxt)]
      · rw [if_neg hxt, if_neg (by
          intro hc
          rcases List.mem_cons.mp hc with hc | hc
          · exact hxe hc
          · exact hxt hc)]

theorem drainLoop_eq (f : Feed) :
    ∀ (fuel : Nat) (s : List Entry), wfE s →
      s.countP (eligU f) ≤ fuel →
      drainLoop fuel s f = s.map (markIfElig f) := by
  intro fuel
  induction fuel with
  | zero =>
    intro s _ hc
    have h0 := List.countP_eq_zero.mp (Nat.le_zero.mp hc)
    show s = _
    symm
    calc s.map (markIfElig f)
        = s.map id := List.map_congr_left (fun x hx => by
          unfold markIfElig
          simp [h0 x hx])
      _ = s := List.map_id s
  | succ fuel ih =>
    intro s hwf hc
    have hstep : drainLoop (fuel + 1) s f =
        if (Entry.latest_unpublished s f).take 25 = [] then s
        else drainLoop fuel
          (((Entry.latest_unpublished s f).take 25).foldl
            (fun acc e => putEntry acc (drainMark e)) s) f := rfl
    rw [hstep]
    by_cases hpage : (Entry.latest_unpublished s f).take 25 = []
    · rw [if_pos hpage]
      have hL : Entry.latest_unpublished s f = [] := by
        rcases List.take_eq_nil_iff.mp hpage with h | h
        · cases h
        · exact h
      have hfil : s.filter (eligU f) = [] := by
        have hperm := List.perm_insertionSort addedDesc (s.filter (eligU f))
        rw [← latest_unpublished_eq, hL] at hperm
        exact (List.Perm.symm hperm).eq_nil
      have h0 := List.filter_eq_nil_iff.mp hfil
      symm
      calc s.map (markIfElig f)
          = s.map id := List.map_congr_left (fun x hx => by
            unfold markIfElig
            simp [h0 x hx])
        _ = s := List.map_id s
    · rw [if_neg hpage]
      have hmem : ∀ e ∈ (Entry.latest_unpublished s f).take 25,
          e ∈ s ∧ eligU f e = true := by
        intro e he
        have h1 : e ∈ Entry.latest_unpublished s f := List.mem_of_mem_take he
        rw [latest_unpublished_eq, List.mem_insertionSort] at h1
        exact List.mem_filter.mp h1
      have hkeys : (((Entry.latest_unpublished s f).take 25).map Entry.ekey).Nodup := by
        rw [latest_unpublished_eq]
        exact pageKeys_nodup hwf (eligU f) addedDesc 25
      rw [markPage_eq f _ s hwf hmem hkeys]
      have her : ∀ x : Entry,
          (if x.ekey ∈ ((Entry.latest_unpublished s f).take 25).map Entry.ekey
            then drainMark x else x).ekey = x.ekey := by
        intro x
        split <;> rfl
      have hwf' : wfE (s.map (fun x =>
          if x.ekey ∈ ((Entry.latest_unpublished s f).take 25).map Entry.ekey
          then drainMark x else x)) := by
        unfold wfE
        rw [List.map_map]
        have : (Entry.ekey ∘ fun x =>
            if x.ekey ∈ ((Entry.latest_unpublished s f).take 25).map Entry.ekey
            then drainMark x else x) = Entry.ekey := by
          funext x
          exact her x
        rw [this]
        exact hwf
      have hc' : (s.map (fun x =>
          if x.ekey ∈ ((Entry.latest_unpublished s f).take 25).map Entry.ekey
          then drainMark x else x)).countP (eligU f) ≤ fuel := by
        rw [List.countP_map]
        have heq : s.countP ((eligU f) ∘ fun x =>
            if x.ekey ∈ ((Entry.latest_unpublished s f).take 25).map Entry.ekey
            then drainMark x else x) =
          s.countP (fun x => eligU f x &&
            !(decide (x.ekey ∈ ((Entry.latest_unpublished s f).take 25).map Entry.ekey))) := by
          rw [List.countP_eq_length_filter, List.countP_eq_length_filter]
          rw [List.filter_congr ?_]
          intro x _
          simp only [Function.comp_apply]
          by_cases hin : x.ekey ∈ ((Entry.latest_unpublished s f).take 25).map Entry.ekey
          · rw [if_pos hin, eligU_drainMark, decide_eq_true hin]
            simp
          · rw [if_neg hin, decide_eq_false hin]
            simp
        rw [heq]
        have hlt : s.countP (fun x => eligU f x &&
            !(decide (x.ekey ∈ ((Entry.latest_unpublished s f).take 25).map Entry.ekey))) <
            s.countP (eligU f) := by
          obtain ⟨e₀, he₀⟩ := List.exists_mem_of_ne_nil _ hpage
          refine countP_and_not_lt _ _ _ ⟨e₀, (hmem e₀ he₀).1, (hmem e₀ he₀).2, ?_⟩
          exact decide_eq_true (List.mem_map_of_mem Entry.ekey he₀)
        omega
      rw [ih _ hwf' hc', List.map_map]
      refine List.map_congr_left ?_
      intro x hx
      simp only [Function.comp_apply]
      by_cases hin : x.ekey ∈ ((Entry.latest_unpublished s f).take 25).map Entry.ekey
      · rw [if_pos hin]
        obtain ⟨e₀, he₀, hk⟩ := List.mem_map.mp hin
        have hx_eq : x = e₀ := wfE_unique hwf hx (hmem e₀ he₀).1 hk.symm
        have helig : eligU f x = true := hx_eq ▸ (hmem e₀ he₀).2
        unfold markIfElig
        rw [if_neg (by simp [eligU_drainMark]), if_pos helig]
      · rw [if_neg hin]

/-- The drain policy in closed form: `Entry.drain_queue` marks exactly the
unpublished, non-reserved entries of the feed (in place, page by page) and
touches nothing else. -/
theorem drain_queue_eq (s : List Entry) (f : Feed) (hwf : wfE s) :
    Entry.drain_queue s f = s.map (markIfElig f) :=
  drainLoop_eq f (s.length + 1) s hwf
    (le_trans (List.countP_le_length _) (Nat.le_succ _))

theorem deleteLoop_eq (f : Feed) :
    ∀ (fuel : Nat) (s : List Entry), wfE s →
      s.countP (eligD f) ≤ fuel →
      deleteLoop fuel s f = s.filter (fun e => !(eligD f e)) := by
  intro fuel
  induction fuel with
  | zero =>
    intro s _ hc
    have h0 := List.countP_eq_zero.mp (Nat.le_zero.mp hc)
    show s = _
    symm
    rw [List.filter_eq_self]
    intro a ha
    simp [h0 a ha]
  | succ fuel ih =>
    intro s hwf hc
    have hstep : deleteLoop (fuel + 1) s f =
        if (Entry.latest_for_feed s f).take 25 = [] then s
        else deleteLoop fuel
          (deleteKeys s (((Entry.latest_for_feed s f).take 25).map Entry.ekey)) f := rfl
    rw [hstep]
    by_cases hpage : (Entry.latest_for_feed s f).take 25 = []
    · rw [if_pos hpage]
      have hL : Entry.latest_for_feed s f = [] := by
        rcases List.take_eq_nil_iff.mp hpage with h | h
        · cases h
        · exact h
      rw [latest_for_feed_eq] at hL
      have h0 := List.filter_eq_nil_iff.mp hL
      symm
      rw [List.filter_eq_self]
      intro a ha
      simp [h0 a ha]
    · rw [if_neg hpage]
      have hmem : ∀ e ∈ (Entry.latest_for_feed s f).take 25,
          e ∈ s ∧ eligD f e = true := by
        intro e he
        have h1 : e ∈ Entry.latest_for_feed s f := List.mem_of_mem_take he
        rw [latest_for_feed_eq] at h1
        exact List.mem_filter.mp h1
      have hnotin : ∀ x ∈ s, eligD f x = false →
          x.ekey ∉ ((Entry.latest_for_feed s f).take 25).map Entry.ekey := by
        intro x hx hne hin
        obtain ⟨e₀, he₀, hk⟩ := List.mem_map.mp hin
        have hx_eq : x = e₀ := wfE_unique hwf hx (hmem e₀ he₀).1 hk.symm
        rw [hx_eq, (hmem e₀ he₀).2] at hne
        cases hne
      have hdel : deleteKeys s (((Entry.latest_for_feed s f).take 25).map Entry.ekey) =
          s.filter (fun e =>
            decide (¬e.ekey ∈ ((Entry.latest_for_feed s f).take 25).map Entry.ekey)) := rfl
      have hwf' : wfE (deleteKeys s (((Entry.latest_for_feed s f).take 25).map Entry.ekey)) := by
        rw [hdel]
        exact List.Nodup.sublist ((List.filter_sublist s).map Entry.ekey) hwf
      have hc' : (deleteKeys s (((Entry.latest_for_feed s f).take 25).map Entry.ekey)).countP
          (eligD f) ≤ fuel := by
        rw [hdel, List.countP_filter]
        have heq : s.countP (fun a => eligD f a &&
            decide (¬a.ekey ∈ ((Entry.latest_for_feed s f).take 25).map Entry.ekey)) =
          s.countP (fun a => eligD f a &&
            !(decide (a.ekey ∈ ((Entry.latest_for_feed s f).take 25).map Entry.ekey))) := by
          rw [List.countP_eq_length_filter, List.countP_eq_length_filter]
          rw [List.filter_congr ?_]
          intro x _
          rw [decide_not]
        rw [heq]
        have hlt : s.countP (fun a => eligD f a &&
            !(decide (a.ekey ∈ ((Entry.latest_for_feed s f).take 25).map Entry.ekey))) <
            s.countP (eligD f) := by
          obtain ⟨e₀, he₀⟩ := List.exists_mem_of_ne_nil _ hpage
          refine countP_and_not_lt _ _ _ ⟨e₀, (hmem e₀ he₀).1, (hmem e₀ he₀).2, ?_⟩
          exact decide_eq_true (List.mem_map_of_mem Entry.ekey he₀)
        omega
      rw [ih _ hwf' hc', hdel, List.filter_filter]
      refine List.filter_congr ?_
      intro x hx
      by_cases helig : eligD f x = true
      · simp [helig]
      · have hne := eq_false_of_ne_true helig
        have hni := hnotin x hx hne
        rw [hne, decide_eq_true hni]
        simp

/-- Cascade deletion in closed form: `Entry.delete_for_feed` removes exactly
the non-reserved (`creating=false`) entries of the feed, page by page;
reservations and other feeds' entries survive. -/
theorem delete_for_feed_eq (s : List Entry) (f : Feed) (hwf : wfE s) :
    Entry.delete_for_feed s f = s.filter (fun e => !(eligD f e)) :=
  deleteLoop_eq f (s.length + 1) s hwf
    (le_trans (List.countP_le_length _) (Nat.le_succ _))

theorem queries_empty_of_no_children {s' : List Entry} {f : Feed}
    (h : ∀ x ∈ s', ¬(x.creating = false ∧ x.feedId = f.id)) :
    Entry.latest_for_feed s' f = [] ∧ Entry.latest_unpublished s' f = [] ∧
      (∀ since, Entry.latest_published s' f since = []) ∧
      (∀ io cats ob, Entry.latest s' f io cats ob = []) := by
  have h1 : Entry.latest_for_feed s' f = [] := by
    rw [latest_for_feed_eq, List.filter_eq_nil_iff]
    intro a ha hpa
    exact h a ha (of_decide_eq_true hpa)
  have h2 : Entry.latest_unpublished s' f = [] := by
    rw [latest_unpublished_eq]
    have hf : s'.filter (eligU f) = [] := by
      rw [List.filter_eq_nil_iff]
      intro a ha hpa
      have hp := of_decide_eq_true hpa
      exact h a ha ⟨hp.2.1, hp.2.2⟩
    rw [hf]
    rfl
  have h3 : ∀ since, Entry.latest_published s' f since = [] := by
    intro since
    have hf : s'.filter (fun e =>
        decide (e.published = true ∧ e.creating = false ∧ e.feedId = f.id)) = [] := by
      rw [List.filter_eq_nil_iff]
      intro a ha hpa
      have hp := of_decide_eq_true hpa
      exact h a ha ⟨hp.2.1, hp.2.2⟩
    simp only [Entry.latest_published, hf]
    cases since <;> rfl
  have h4 : ∀ io cats ob, Entry.latest s' f io cats ob = [] := by
    intro io cats ob
    have hf : s'.filter (fun e =>
        decide (e.published = true ∧ e.creating = false ∧
          e.overflow = io ∧ e.feedId = f.id)) = [] := by
      rw [List.filter_eq_nil_iff]
      intro a ha hpa
      have hp := of_decide_eq_true hpa
      exact h a ha ⟨hp.2.1, hp.2.2.2⟩
    simp only [Entry.latest, hf]
    split_ifs <;> rfl
  exact ⟨h1, h2, h3, h4⟩

/-- Concrete active entry of the feed used for the C8 theorems. -/
def entC8act : Entry :=
  { feedId := 5, guid := "a", creating := false, title := none, link := none,
    summary := none, added := 0, published := false, overflow := false,
    overflow_reason := 0, published_at := none }

/-- Concrete `creating=true` reservation of the feed used for the C8
theorems. -/
def entC8res : Entry :=
  { feedId := 5, guid := "r", creating := true, title := none, link := none,
    summary := none, added := 1, published := false, overflow := false,
    overflow_reason := 0, published_at := none }

/-- Concrete feed used for the C8 theorems. -/
def feedC8 : Feed :=
  { id := 5, userId := some 1, status := FEED_STATE.ACTIVE,
    manual_control := false, schedule_period := 5, max_stories_per_period := 1,
    hub_secret := none }

/-- C8 counterexample: `delete_for_feed` pages through `latest_for_feed`,
whose filter excludes `creating=true`, so a reservation child of the feed is
not deleted: it is still in the store afterwards, refuting "deletes all of
that feed's descendant entries (every child entry, including creating=true
reservations)". -/
theorem delete_for_feed_keeps_reservation :
    Entry.delete_for_feed [entC8res] feedC8 = [entC8res] ∧
      entC8res.feedId = feedC8.id ∧ entC8res.creating = true := by
  decide

/-- C8 (amended): deleting a feed's entries removes exactly the non-reserved
(`creating=false`) children, in bounded pages of 25; `creating=true`
reservations (and other feeds' entries) survive in the store, but afterwards
every feed-scoped query — all of which exclude reservations — returns no
entry of the feed. -/
theorem delete_for_feed_removes_nonreserved (s : List Entry) (f : Feed)
    (hwf : wfE s) :
    Entry.delete_for_feed s f = s.filter (fun e => !(eligD f e)) ∧
    Entry.latest_for_feed (Entry.delete_for_feed s f) f = [] ∧
    Entry.latest_unpublished (Entry.delete_for_feed s f) f = [] ∧
    (∀ since, Entry.latest_published (Entry.delete_for_feed s f) f since = []) ∧
    (∀ io cats ob, Entry.latest (Entry.delete_for_feed s f) f io cats ob = []) ∧
    (∀ e ∈ s, e.creating = true → e ∈ Entry.delete_for_feed s f) ∧
    (∀ e ∈ s, e.feedId ≠ f.id → e ∈ Entry.delete_for_feed s f) := by
  have hdel := delete_for_feed_eq s f hwf
  have hmemres : ∀ x ∈ Entry.delete_for_feed s f,
      ¬(x.creating = false ∧ x.feedId = f.id) := by
    intro x hx hc
    rw [hdel] at hx
    have hb := (List.mem_filter.mp hx).2
    have hd : eligD f x = true := decide_eq_true hc
    rw [hd] at hb
    cases hb
  have hq := queries_empty_of_no_children hmemres
  refine ⟨hdel, hq.1, hq.2.1, hq.2.2.1, hq.2.2.2, ?_, ?_⟩
  · intro e he hcr
    rw [hdel]
    refine List.mem_filter.mpr ⟨he, ?_⟩
    have hd : eligD f e = false := by simp [eligD, hcr]
    rw [hd]
    rfl
  · intro e he hne
    rw [hdel]
    refine List.mem_filter.mpr ⟨he, ?_⟩
    have hd : eligD f e = false := by simp [eligD, hne]
    rw [hd]
    rfl

/-- Witness for the C8 theorem: with one active entry and one reservation,
deletion keeps exactly the reservation. -/
theorem delete_for_feed_removes_nonreserved_witness :
    Entry.delete_for_feed [entC8act, entC8res] feedC8 =
      [entC8act, entC8res].filter (fun e => !(eligD feedC8 e)) ∧
    entC8res ∈ Entry.delete_for_feed [entC8act, entC8res] feedC8 :=
  ⟨(delete_for_feed_removes_nonreserved [entC8act, entC8res] feedC8
      (by decide)).1,
   (delete_for_feed_removes_nonreserved [entC8act, entC8res] feedC8
      (by decide)).2.2.2.2.2.1 entC8res (by decide) rfl⟩

/-! ### Drain policy after ingestion (C4) -/

theorem finalNewEntry_enriched (items : List Item) (f : Feed) (o : Bool)
    (rsn : Nat) (enrich : Item → Option Enriched) (now : Int) (g : String)
    (hit : ∃ it ∈ items, it.guid = g) (hen : ∀ it ∈ items, enrich it ≠ none) :
    (finalNewEntry items f o rsn enrich now g).creating = false ∧
    (finalNewEntry items f o rsn enrich now g).published = o ∧
    (finalNewEntry items f o rsn enrich now g).feedId = f.id ∧
    (finalNewEntry items f o rsn enrich now g).guid = g := by
  obtain ⟨it, hmem, hg⟩ := hit
  have hfind : (items.find? (fun it => decide (it.guid = g))).isSome = true :=
    List.find?_isSome.mpr ⟨it, hmem, decide_eq_true hg⟩
  obtain ⟨a, ha⟩ := Option.isSome_iff_exists.mp hfind
  obtain ⟨k, hk⟩ := Option.ne_none_iff_exists'.mp
    (hen a (List.mem_of_find?_eq_some ha))
  unfold finalNewEntry
  rw [ha, Option.some_bind, hk]
  exact ⟨rfl, rfl, rfl, rfl⟩

theorem finalNewEntry_mem_process (s : List Entry) (items : List Item)
    (f : Feed) (o : Bool) (rsn : Nat) (enrich : Item → Option Enriched)
    (now : Int) {g : String} (hg : g ∈ newGuids s f items) :
    finalNewEntry items f o rsn enrich now g
      ∈ (Entry.process_parsed_feed s items f o rsn enrich now).2 := by
  show finalNewEntry items f o rsn enrich now g
    ∈ ((newGuids s f items).map (finalNewEntry items f o rsn enrich now)).foldl
        putEntry _
  refine mem_foldl_putEntry_of_nodup _ _ ?_ (List.mem_map_of_mem _ hg)
  rw [List.map_map]
  have hco : (Entry.ekey ∘ finalNewEntry items f o rsn enrich now) =
      (fun g => (f.id, g)) := by
    funext g'
    exact ekey_finalNewEntry items f o rsn enrich now g'
  rw [hco]
  exact List.Nodup.map
    (fun a b h => by
      simpa using congrArg Prod.snd h)
    (nodup_newGuids s f items)

theorem mem_process_of_mem (s : List Entry) (items : List Item) (f : Feed)
    (o : Bool) (rsn : Nat) (enrich : Item → Option Enriched) (now : Int)
    {e : Entry} (he : e ∈ s) :
    e ∈ (Entry.process_parsed_feed s items f o rsn enrich now).2 := by
  have hkey : ∀ g ∈ newGuids s f items, e.ekey ≠ (f.id, g) := by
    intro g hg hk
    have hp := (mem_newGuids.mp hg).2
    have hp' : presentGuid s f g = true := presentGuid_iff.mpr ⟨e, he, hk⟩
    rw [hp'] at hp
    cases hp
  show e ∈ ((newGuids s f items).map (finalNewEntry items f o rsn enrich now)).foldl
      putEntry (((newGuids s f items).map (fun g => reservationEntry f g now)).foldl
        putEntry s)
  refine mem_foldl_putEntry_of_ne _ ?_ ?_
  · refine mem_foldl_putEntry_of_ne _ he ?_
    intro r hr
    obtain ⟨g, hg, rfl⟩ := List.mem_map.mp hr
    rw [ekey_reservation]
    exact hkey g hg
  · intro r hr
    obtain ⟨g, hg, rfl⟩ := List.mem_map.mp hr
    rw [ekey_finalNewEntry]
    exact hkey g hg

theorem update_for_feed_no_publish_eq (db : DB) (f : Feed)
    (skipq o : Bool) (rsn : Nat) (items : List Item)
    (enrich : Item → Option Enriched) (now : Int) (resp : Entry → PostResp) :
    Entry.update_for_feed db f false skipq o rsn 200 items enrich now resp =
      (⟨if decide
          ((Entry.process_parsed_feed db.entries items f o rsn enrich now).1.1.length +
            (Entry.process_parsed_feed db.entries items f o rsn enrich now).1.2.length ≥ 5 ∧
           (Entry.process_parsed_feed db.entries items f o rsn enrich now).1.1.length =
            (Entry.process_parsed_feed db.entries items f o rsn enrich now).1.1.length +
            (Entry.process_parsed_feed db.entries items f o rsn enrich now).1.2.length)
        then Entry.drain_queue
          (Entry.process_parsed_feed db.entries items f o rsn enrich now).2 f
        else (Entry.process_parsed_feed db.entries items f o rsn enrich now).2,
        db.feeds⟩,
       (Entry.process_parsed_feed db.entries items f o rsn enrich now).1.1.length,
       false) := by
  simp only [Entry.update_for_feed]
  norm_num
  split <;> rfl

/-- C4: when ingestion finds at least five guids and every one is new, the
drain policy runs: every unpublished, non-reserved entry of the feed —
including all the just-ingested ones — ends published + overflow with
reason FEED_OVERFLOW, paginated marking leaves no publish-eligible entry
behind, and the reported number of new items is the item count. -/
theorem update_for_feed_drain_all_new (db : DB) (f : Feed) (rsn : Nat)
    (items : List Item) (enrich : Item → Option Enriched) (now : Int)
    (hwf : wfE db.entries)
    (hnodup : (items.map Item.guid).Nodup)
    (hcount : 5 ≤ items.length)
    (hallnew : ∀ g ∈ items.map Item.guid, presentGuid db.entries f g = false)
    (henrich : ∀ it ∈ items, enrich it ≠ none) :
    (Entry.update_for_feed db f false false false rsn 200 items enrich now
        (fun _ => PostResp.netFail)).2.1 = items.length ∧
    (Entry.update_for_feed db f false false false rsn 200 items enrich now
        (fun _ => PostResp.netFail)).2.2 = false ∧
    (∀ it ∈ items, ∃ e ∈ (Entry.update_for_feed db f false false false rsn 200
        items enrich now (fun _ => PostResp.netFail)).1.entries,
      e.feedId = f.id ∧ e.guid = it.guid ∧ e.published = true ∧
        e.overflow = true ∧ e.overflow_reason = OVERFLOW_REASON.FEED_OVERFLOW) ∧
    (∀ e ∈ db.entries, e.published = false → e.creating = false →
        e.feedId = f.id →
      drainMark e ∈ (Entry.update_for_feed db f false false false rsn 200 items
        enrich now (fun _ => PostResp.netFail)).1.entries) ∧
    Entry.latest_unpublished (Entry.update_for_feed db f false false false rsn
        200 items enrich now (fun _ => PostResp.netFail)).1.entries f = [] := by
  have hing : ingestGuids items = items.map Item.guid := by
    unfold ingestGuids
    exact List.Nodup.dedup hnodup
  have hold : oldGuids db.entries f items = [] := by
    unfold oldGuids
    rw [List.filter_eq_nil_iff]
    intro g hg hp
    rw [hing] at hg
    rw [hallnew g hg] at hp
    cases hp
  have hnew : newGuids db.entries f items = ingestGuids items := by
    unfold newGuids
    rw [List.filter_eq_self]
    intro g _
    rw [hold]
    simp
  have hlen : (newGuids db.entries f items).length = items.length := by
    rw [hnew, hing, List.length_map]
  have hr1 : (Entry.process_parsed_feed db.entries items f false rsn enrich
      now).1.1 = newGuids db.entries f items := rfl
  have hr2 : (Entry.process_parsed_feed db.entries items f false rsn enrich
      now).1.2 = oldGuids db.entries f items := rfl
  have hdq : decide
      ((Entry.process_parsed_feed db.entries items f false rsn enrich now).1.1.length +
        (Entry.process_parsed_feed db.entries items f false rsn enrich now).1.2.length ≥ 5 ∧
       (Entry.process_parsed_feed db.entries items f false rsn enrich now).1.1.length =
        (Entry.process_parsed_feed db.entries items f false rsn enrich now).1.1.length +
        (Entry.process_parsed_feed db.entries items f false rsn enrich now).1.2.length)
      = true := by
    apply decide_eq_true
    rw [hr1, hr2, hold, hlen]
    simp [hcount]
  have hupd := update_for_feed_no_publish_eq db f false false rsn items
    enrich now (fun _ => PostResp.netFail)
  rw [hdq, if_pos rfl] at hupd
  have hwf2 : wfE (Entry.process_parsed_feed db.entries items f false rsn
      enrich now).2 := wfE_process hwf
  have hdrain := drain_queue_eq _ f hwf2
  have hent : (Entry.update_for_feed db f false false false rsn 200 items
      enrich now (fun _ => PostResp.netFail)).1.entries =
      ((Entry.process_parsed_feed db.entries items f false rsn enrich now).2).map
        (markIfElig f) := by
    rw [hupd, ← hdrain]
  refine ⟨?_, by rw [hupd], ?_, ?_, ?_⟩
  · rw [hupd]
    show (Entry.process_parsed_feed db.entries items f false rsn enrich
      now).1.1.length = items.length
    rw [hr1]
    exact hlen
  · intro it hit
    have hg : it.guid ∈ newGuids db.entries f items := by
      rw [hnew, hing]
      exact List.mem_map_of_mem Item.guid hit
    have hfe := finalNewEntry_mem_process db.entries items f false rsn enrich
      now hg
    have hfields := finalNewEntry_enriched items f false rsn enrich now it.guid
      ⟨it, hit, rfl⟩ henrich
    have helig : eligU f (finalNewEntry items f false rsn enrich now it.guid)
        = true := by
      apply decide_eq_true
      exact ⟨hfields.2.1, hfields.1, hfields.2.2.1⟩
    refine ⟨drainMark (finalNewEntry items f false rsn enrich now it.guid), ?_, ?_⟩
    · rw [hent]
      refine List.mem_map.mpr ⟨finalNewEntry items f false rsn enrich now
        it.guid, hfe, ?_⟩
      unfold markIfElig
      rw [if_pos helig]
    · refine ⟨hfields.2.2.1, hfields.2.2.2, rfl, rfl, rfl⟩
  · intro e he hpub hcr hfd
    have he2 := mem_process_of_mem db.entries items f false rsn enrich now he
    have helig : eligU f e = true := decide_eq_true ⟨hpub, hcr, hfd⟩
    rw [hent]
    refine List.mem_map.mpr ⟨e, he2, ?_⟩
    unfold markIfElig
    rw [if_pos helig]
  · rw [hent, latest_unpublished_eq]
    have hnil : (((Entry.process_parsed_feed db.entries items f false rsn
        enrich now).2).map (markIfElig f)).filter (eligU f) = [] := by
      rw [List.filter_eq_nil_iff]
      intro a ha
      obtain ⟨b, _, rfl⟩ := List.mem_map.mp ha
      unfold markIfElig
      by_cases hel : eligU f b = true
      · rw [if_pos hel, eligU_drainMark]
        simp
      · rw [if_neg hel]
        exact fun hc => hel hc
    rw [hnil]
    rfl

/-- Concrete items (six fresh guids) used to witness the C4 theorem. -/
def itemsC4 : List Item :=
  [{ guid := "g1" }, { guid := "g2" }, { guid := "g3" },
   { guid := "g4" }, { guid := "g5" }, { guid := "g6" }]

/-- Concrete enrichment collaborator used to witness the C4 theorem. -/
def enrC4 : Item → Option Enriched :=
  fun it => some { title := it.guid, link := "l", summary := "s" }

/-- Concrete feed used to witness the C4 theorem. -/
def feedC4 : Feed :=
  { id := 6, userId := some 3, status := FEED_STATE.ACTIVE,
    manual_control := false, schedule_period := 5, max_stories_per_period := 1,
    hub_secret := none }

/-- Witness for the C4 theorem: ingesting six new guids with zero known
guids drains all six into published overflow(FEED_OVERFLOW). -/
theorem update_for_feed_drain_all_new_witness :
    (∀ it ∈ itemsC4, ∃ e ∈ (Entry.update_for_feed ⟨[], [feedC4]⟩ feedC4 false
        false false 1 200 itemsC4 enrC4 9 (fun _ => PostResp.netFail)).1.entries,
      e.feedId = feedC4.id ∧ e.guid = it.guid ∧ e.published = true ∧
        e.overflow = true ∧ e.overflow_reason = OVERFLOW_REASON.FEED_OVERFLOW) ∧
    Entry.latest_unpublished (Entry.update_for_feed ⟨[], [feedC4]⟩ feedC4 false
        false false 1 200 itemsC4 enrC4 9 (fun _ => PostResp.netFail)).1.entries
      feedC4 = [] :=
  ⟨(update_for_feed_drain_all_new ⟨[], [feedC4]⟩ feedC4 1 itemsC4 enrC4 9
      (by decide) (by decide) (by decide) (by decide)
      (fun it _ => by simp [enrC4])).2.2.1,
   (update_for_feed_drain_all_new ⟨[], [feedC4]⟩ feedC4 1 itemsC4 enrC4 9
      (by decide) (by decide) (by decide) (by decide)
      (fun it _ => by simp [enrC4])).2.2.2.2⟩

/-! ### Publish scheduler (C2, C7) -/

/-- The published form of an entry: what the publish tail persists. -/
def pubbed (e : Entry) (now : Int) : Entry :=
  { e with published := true, published_at := some now }

theorem finishPublish_eq (db : DB) (e : Entry) (now : Int) :
    finishPublish db e now =
      (⟨putEntry db.entries (pubbed e now), db.feeds⟩, false) := rfl

theorem publishLoop_200 (f fd : Feed) (now : Int) (resp : Entry → PostResp) :
    ∀ (es : List Entry) (db : DB),
      (∀ e ∈ es, resp e = PostResp.status 200) →
      (∀ e ∈ es, e.feedId = f.id) →
      getFeed db.feeds f.id = some fd →
      fd.userId ≠ none →
      (es.map Entry.ekey).Nodup →
      (publishLoop db es now resp).1.feeds = db.feeds ∧
      (publishLoop db es now resp).2.1 = es.length ∧
      (publishLoop db es now resp).2.2 = false ∧
      (∀ e ∈ es, pubbed e now ∈ (publishLoop db es now resp).1.entries) ∧
      (∀ x ∈ db.entries, x.ekey ∉ es.map Entry.ekey → x ∈ (publishLoop db es now resp).1.entries) := by
  intro es
  induction es with
  | nil =>
    intro db _ _ _ _ _
    exact ⟨rfl, rfl, rfl, fun e he => absurd he (List.not_mem_nil e),
      fun x hx _ => hx⟩
  | cons e t ih =>
    intro db hresp hfeed hget hparent hkeys
    rw [List.map_cons, List.nodup_cons] at hkeys
    have hef : e.feedId = f.id := hfeed e (List.mem_cons_self e t)
    have hpe : Entry.publish_entry db e now (resp e) =
        (⟨putEntry db.entries (pubbed e now), db.feeds⟩, false) := by
      rw [hresp e (List.mem_cons_self e t)]
      unfold Entry.publish_entry
      rw [hef, hget]
      simp [hparent, finishPublish_eq]
    have hstep : publishLoop db (e :: t) now resp =
        ((publishLoop ⟨putEntry db.entries (pubbed e now), db.feeds⟩ t now resp).1,
         (publishLoop ⟨putEntry db.entries (pubbed e now), db.feeds⟩ t now resp).2.1 + 1,
         (publishLoop ⟨putEntry db.entries (pubbed e now), db.feeds⟩ t now resp).2.2) := by
      simp only [publishLoop, hpe]
      rfl
    have hrec := ih ⟨putEntry db.entries (pubbed e now), db.feeds⟩
      (fun x hx => hresp x (List.mem_cons_of_mem e hx))
      (fun x hx => hfeed x (List.mem_cons_of_mem e hx)) hget hparent hkeys.2
    refine ⟨?_, ?_, ?_, ?_, ?_⟩
    · rw [hstep, hrec.1]
    · rw [hstep, hrec.2.1, List.length_cons]
    · rw [hstep, hrec.2.2.1]
    · intro x hx
      rw [hstep]
      rcases List.mem_cons.mp hx with rfl | hxt
      · refine hrec.2.2.2.2 _ (self_mem_putEntry _ _) ?_
        show x.ekey ∉ t.map Entry.ekey
        exact hkeys.1
      · exact hrec.2.2.2.1 x hxt
    · intro x hx hnk
      rw [hstep]
      have hne : x.ekey ≠ e.ekey := fun hk =>
        hnk (by rw [List.map_cons]; exact List.mem_cons.mpr (Or.inl hk))
      refine hrec.2.2.2.2 x (mem_putEntry_of_ne _ hx hne) ?_
      intro hk
      exact hnk (by rw [List.map_cons]; exact List.mem_cons.mpr (Or.inr hk))

/-- C2 (amended): with a positive remaining budget N and no `skip_queue`,
the scheduler fetches the first N entries of `latest_unpublished` — the N
NEWEST unpublished, non-reserved entries of the feed (the query orders by
`-added`) — publishes exactly those, sequentially in newest-first order,
and never skips a newer unpublished entry in favor of an older one. -/
theorem publish_for_feed_newest_first (db : DB) (f fd : Feed) (now : Int)
    (resp : Entry → PostResp)
    (hwf : wfE db.entries)
    (hget : getFeed db.feeds f.id = some fd)
    (hparent : fd.userId ≠ none)
    (hresp : ∀ e, resp e = PostResp.status 200)
    (hb : 0 < computedBudget db f now) :
    publishSelection db f false now =
      (Entry.latest_unpublished db.entries f).take
        (computedBudget db f now).toNat ∧
    (Entry.publish_for_feed db f false now resp).2.1 =
      (publishSelection db f false now).length ∧
    (Entry.publish_for_feed db f false now resp).2.2 = false ∧
    (publishSelection db f false now).length =
      min (computedBudget db f now).toNat
        (Entry.latest_unpublished db.entries f).length ∧
    List.Pairwise addedDesc (publishSelection db f false now) ∧
    (∀ x ∈ publishSelection db f false now,
      ∀ y ∈ (Entry.latest_unpublished db.entries f).drop
          (computedBudget db f now).toNat,
        y.added ≤ x.added) ∧
    (∀ e ∈ publishSelection db f false now,
      pubbed e now ∈ (Entry.publish_for_feed db f false now resp).1.entries) := by
  have hsel : publishSelection db f false now =
      (Entry.latest_unpublished db.entries f).take
        (computedBudget db f now).toNat := by
    unfold publishSelection effectiveBudget
    rfl
  have hpf : Entry.publish_for_feed db f false now resp =
      publishLoop db (publishSelection db f false now) now resp := by
    unfold Entry.publish_for_feed
    rw [if_pos (Or.inl hb)]
  have hselmem : ∀ e ∈ publishSelection db f false now,
      e ∈ db.entries ∧ e.published = false ∧ e.creating = false ∧
        e.feedId = f.id := by
    intro e he
    rw [hsel] at he
    exact mem_latest_unpublished.mp (List.mem_of_mem_take he)
  have hkeys : ((publishSelection db f false now).map Entry.ekey).Nodup := by
    rw [hsel, latest_unpublished_eq]
    exact pageKeys_nodup hwf _ addedDesc _
  have hloop := publishLoop_200 f fd now resp (publishSelection db f false now)
    db (fun e _ => hresp e) (fun e he => (hselmem e he).2.2.2) hget hparent hkeys
  have hsorted : List.Sorted addedDesc (Entry.latest_unpublished db.entries f) := by
    rw [latest_unpublished_eq]
    exact List.sorted_insertionSort addedDesc _
  refine ⟨hsel, ?_, ?_, ?_, ?_, ?_, ?_⟩
  · rw [hpf, hloop.2.1]
  · rw [hpf, hloop.2.2.1]
  · rw [hsel, List.length_take]
  · rw [hsel]
    exact List.Pairwise.sublist (List.take_sublist _ _) hsorted
  · intro x hx y hy
    have hpw : List.Pairwise addedDesc
        ((Entry.latest_unpublished db.entries f).take
            (computedBudget db f now).toNat ++
          (Entry.latest_unpublished db.entries f).drop
            (computedBudget db f now).toNat) := by
      rw [List.take_append_drop]
      exact hsorted
    rw [hsel] at hx
    exact (List.pairwise_append.mp hpw).2.2 x hx y hy
  · intro e he
    rw [hpf]
    exact hloop.2.2.2.1 e he

/-- Older unpublished entry used for the C2 theorems. -/
def entC2old : Entry :=
  { feedId := 7, guid := "old", creating := false, title := none, link := none,
    summary := none, added := 0, published := false, overflow := false,
    overflow_reason := 0, published_at := none }

/-- Newer unpublished entry used for the C2 theorems. -/
def entC2new : Entry :=
  { feedId := 7, guid := "new", creating := false, title := none, link := none,
    summary := none, added := 1, published := false, overflow := false,
    overflow_reason := 0, published_at := none }

/-- Manually scheduled feed with a one-post budget used for the C2 theorems. -/
def feedC2 : Feed :=
  { id := 7, userId := some 4, status := FEED_STATE.ACTIVE,
    manual_control := true, schedule_period := 60, max_stories_per_period := 1,
    hub_secret := none }

/-- Store used for the C2 theorems. -/
def dbC2 : DB := { entries := [entC2old, entC2new], feeds := [feedC2] }

/-- C2 counterexample: with budget 1 and two unpublished entries, the
scheduler publishes the NEWER entry (`added = 1`) and leaves the older one
(`added = 0`) unpublished — it skips an older unpublished entry in favor of
a newer one, refuting oldest-first selection. -/
theorem publish_for_feed_not_oldest_first :
    (Entry.publish_for_feed dbC2 feedC2 false 100 (fun _ => PostResp.status 200)).2.1 = 1 ∧
    entC2old ∈ (Entry.publish_for_feed dbC2 feedC2 false 100 (fun _ => PostResp.status 200)).1.entries ∧
    entC2old.published = false ∧
    pubbed entC2new 100 ∈ (Entry.publish_for_feed dbC2 feedC2 false 100 (fun _ => PostResp.status 200)).1.entries ∧
    entC2old.added < entC2new.added := by
  decide

/-- All-200 response function used by the C2 and C7 witnesses. -/
def respOK : Entry → PostResp := fun _ => PostResp.status 200

/-- Witness for the C2 theorem at a concrete store: one post is made and it
is the newest unpublished entry, marked published in the store. -/
theorem publish_for_feed_newest_first_witness :
    (Entry.publish_for_feed dbC2 feedC2 false 100 respOK).2.1 =
      (publishSelection dbC2 feedC2 false 100).length ∧
    (∀ e ∈ publishSelection dbC2 feedC2 false 100,
      pubbed e 100 ∈ (Entry.publish_for_feed dbC2 feedC2 false 100 respOK).1.entries) :=
  ⟨(publish_for_feed_newest_first dbC2 feedC2 feedC2 100 respOK (by decide)
      (by decide) (by decide) (fun _ => rfl) (by decide)).2.1,
   (publish_for_feed_newest_first dbC2 feedC2 feedC2 100 respOK (by decide)
      (by decide) (by decide) (fun _ => rfl) (by decide)).2.2.2.2.2.2⟩

/-- C7 (amended): under `skip_queue`, `max_stories_to_publish or 1` forces a
budget of exactly 1 only when the remaining budget is exactly 0 (Python
`or` replaces only the falsy value `0`); a strictly negative remaining
budget is kept as is, so no entry is fetched and nothing is posted. -/
theorem skip_queue_budget_forcing (db : DB) (f : Feed) (now : Int)
    (resp : Entry → PostResp) :
    effectiveBudget true (computedBudget db f now) =
      (if computedBudget db f now = 0 then 1 else computedBudget db f now) ∧
    (computedBudget db f now = 0 →
      publishSelection db f true now =
        (Entry.latest_unpublished db.entries f).take 1) ∧
    (computedBudget db f now < 0 →
      Entry.publish_for_feed db f true now resp = (db, 0, false)) := by
  refine ⟨rfl, ?_, ?_⟩
  · intro h0
    unfold publishSelection effectiveBudget
    rw [h0]
    rfl
  · intro hneg
    have heff : effectiveBudget true (computedBudget db f now) =
        computedBudget db f now := by
      unfold effectiveBudget
      rw [if_pos rfl, if_neg (by omega)]
    have hz : (computedBudget db f now).toNat = 0 :=
      Int.toNat_of_nonpos (le_of_lt hneg)
    have hsel : publishSelection db f true now = [] := by
      unfold publishSelection
      rw [heff, hz]
      exact List.take_zero _
    unfold Entry.publish_for_feed
    rw [if_pos (Or.inr rfl), hsel]
    rfl

/-- Published-in-window entry maker for the C7 store. -/
def entC7pub (g : String) : Entry :=
  { feedId := 8, guid := g, creating := false, title := none, link := none,
    summary := none, added := 0, published := true, overflow := false,
    overflow_reason := 0, published_at := some 90 }

/-- Unpublished entry in the C7 store. -/
def entC7un : Entry :=
  { feedId := 8, guid := "u", creating := false, title := none, link := none,
    summary := none, added := 5, published := false, overflow := false,
    overflow_reason := 0, published_at := none }

/-- Manually scheduled feed (max 2 per 60 minutes) for the C7 theorems. -/
def feedC7 : Feed :=
  { id := 8, userId := some 4, status := FEED_STATE.ACTIVE,
    manual_control := true, schedule_period := 60, max_stories_per_period := 2,
    hub_secret := none }

/-- Store for the C7 theorems: three entries already published inside the
window (budget 2 − 3 = −1) and one unpublished entry available. -/
def dbC7 : DB :=
  { entries := [entC7pub "p1", entC7pub "p2", entC7pub "p3", entC7un],
    feeds := [feedC7] }

/-- C7 counterexample: with remaining budget −1 (≤ 0) and an eligible
unpublished entry available, a `skip_queue` call posts nothing and leaves
the store untouched — the budget is NOT forced to exactly 1, refuting "the
manual override always attempts to post at least one entry". -/
theorem skip_queue_negative_budget_posts_nothing :
    computedBudget dbC7 feedC7 100 = -1 ∧
    (Entry.latest_unpublished dbC7.entries feedC7).length = 1 ∧
    Entry.publish_for_feed dbC7 feedC7 true 100 (fun _ => PostResp.status 200)
      = (dbC7, 0, false) := by
  decide

/-- Witness for the C7 theorem at the concrete negative-budget store. -/
theorem skip_queue_budget_forcing_witness :
    Entry.publish_for_feed dbC7 feedC7 true 100 respOK = (dbC7, 0, false) :=
  (skip_queue_budget_forcing dbC7 feedC7 100 respOK).2.2 (by decide)

/-! ### Hub push webhook (C9) -/

/-- C9 (amended): on a hub content push for a feed with a configured hub
secret, `feed_push_update` verifies an HMAC of the raw body computed with
the handler's digest — the Python 2 `hmac.new` default, MD5, since no
`digestmod` is passed — against the `X-Hub-Signature` header before any
processing.  On mismatch it mutates nothing and returns the empty success
response; only on match does it ingest the pushed content and run the
publish scheduler (returning the same empty response). -/
theorem feed_push_update_hmac_md5 (hmacF : DigestMod → String → String → String)
    (db : DB) (f : Feed) (body : String) (sig : Option String)
    (parse : String → List Item) (enrich : Item → Option Enriched) (now : Int)
    (resp : Entry → PostResp) (secret : String)
    (hsec : f.hub_secret = some secret) :
    (sig ≠ some (hmacF DigestMod.md5 secret body) →
      feed_push_update hmacF db (some f) body sig parse enrich now resp =
        (db, PushResult.emptyOk)) ∧
    (sig = some (hmacF DigestMod.md5 secret body) →
      feed_push_update hmacF db (some f) body sig parse enrich now resp =
        ((Entry.publish_for_feed
            ⟨(Entry.process_parsed_feed db.entries (parse body) f false
                OVERFLOW_REASON.BACKLOG enrich now).2, db.feeds⟩
            f false now resp).1,
         PushResult.emptyOk)) := by
  constructor
  · intro hne
    have hd : decide (sig = some (hmacF hubPushDigestmod secret body)) = false :=
      decide_eq_false hne
    simp only [feed_push_update, hsec, hd]
    rfl
  · intro heq
    have hd : decide (sig = some (hmacF hubPushDigestmod secret body)) = true :=
      decide_eq_true heq
    simp only [feed_push_update, hsec, hd]
    rfl

/-- Concrete HMAC collaborator for the C9 theorems: distinct digests give
distinct signatures. -/
def hmacC9 : DigestMod → String → String → String :=
  fun d _ _ =>
    match d with
    | DigestMod.sha1 => "S"
    | DigestMod.md5 => "M"

/-- Concrete feed with a configured hub secret for the C9 theorems. -/
def feedC9 : Feed :=
  { id := 9, userId := some 5, status := FEED_STATE.ACTIVE,
    manual_control := false, schedule_period := 5, max_stories_per_period := 1,
    hub_secret := some "k" }

/-- Concrete store for the C9 theorems. -/
def dbC9 : DB := { entries := [], feeds := [feedC9] }

/-- Concrete feedparser collaborator for the C9 theorems. -/
def parseC9 : String → List Item := fun _ => [{ guid := "g" }]

/-- Concrete enrichment collaborator for the C9 theorems. -/
def enrC9 : Item → Option Enriched :=
  fun _ => some { title := "t", link := "l", summary := "s" }

/-- C9 counterexample: the header carries exactly the HMAC-SHA1 of the body
under the feed's secret, yet the handler no-ops (store unchanged, empty
response) because it compares against HMAC with the Python 2 default digest
(MD5), not SHA-1; processing the push would have changed the store.  This
refutes "verifies an HMAC-SHA1 signature ... and only on match does it
ingest". -/
theorem feed_push_update_sha1_match_ignored :
    some "S" = some (hmacC9 DigestMod.sha1 "k" "B") ∧
    feedC9.hub_secret = some "k" ∧
    feed_push_update hmacC9 dbC9 (some feedC9) "B" (some "S") parseC9 enrC9 3
        (fun _ => PostResp.status 200) = (dbC9, PushResult.emptyOk) ∧
    (Entry.process_parsed_feed dbC9.entries (parseC9 "B") feedC9 false
        OVERFLOW_REASON.BACKLOG enrC9 3).2 ≠ dbC9.entries := by
  decide

/-- Witness for the C9 theorem: a header that does not match the HMAC-MD5
signature leaves the store untouched with an empty success response. -/
theorem feed_push_update_hmac_md5_witness :
    feed_push_update hmacC9 dbC9 (some feedC9) "B" (some "S") parseC9 enrC9 3
      respOK = (dbC9, PushResult.emptyOk) :=
  (feed_push_update_hmac_md5 hmacC9 dbC9 feedC9 "B" (some "S") parseC9 enrC9 3
    respOK "k" rfl).1 (by decide)

end Pourover
